import Mathlib

/-! Shallow embedding of the OHLCV bar-aggregation pipeline of
`vnpy_chartwizard/preprocess_daily_data.py` (`BarDataPreprocessor`) and of the
duplicated aggregation logic in `vnpy_datamanager/engine.py` (`ManagerEngine`).

Datetime model.  Every stored `datetime` column value is the text
`YYYY-MM-DD HH:MM:SS` (the repo's own reads do
`datetime.fromisoformat(s.replace(' ', 'T'))`, and the aggregators insert with
`isoformat(' ', 'seconds')`).  We model a datetime as an abstract calendar-day
key `date : Nat` (strictly monotone in the calendar date; consecutive calendar
dates map to consecutive keys) together with `time : Nat`, the second of the
day.  The code only ever compares, groups on, and re-renders these fields, so
the abstraction is faithful.  SQLite compares TEXT with memcmp; both operands
of `ORDER BY datetime` / `MIN` / `MAX` have the same fixed-width zero-padded
rendering, so that comparison is lexicographic in (date, time), which `dtle`
encodes.  The incremental resume parameter of the re-query
`AND datetime > ?` is produced by Python `datetime.isoformat()` whose
separator is `T` (byte 0x54), while stored values use a space (byte 0x20):
when the 10-byte date prefixes agree the stored value compares strictly below
the parameter, and otherwise the comparison is decided on the date prefix.
Hence `datetime > ?` holds iff the stored bar's calendar date is strictly
greater than the parameter's calendar date; `sinceLt` encodes exactly that.

Prices and volumes (Python floats) are modelled as rationals. -/

structure DateTime where
  date : Nat
  time : Nat
deriving DecidableEq

/-- One row of the `dbbardata` table (columns as in the source schema). -/
structure DbRow where
  symbol : String
  exchange : String
  dt : DateTime
  interval : String
  volume : ℚ
  turnover : ℚ
  open_interest : ℚ
  open_price : ℚ
  high_price : ℚ
  low_price : ℚ
  close_price : ℚ
deriving DecidableEq

/-- One row of the `dbbaroverview` table; the `end` column is called
`endTime` here because `end` is reserved in Lean. -/
structure OverviewRow where
  symbol : String
  exchange : String
  interval : String
  count : Nat
  start : Option DateTime
  endTime : Option DateTime
deriving DecidableEq

/-- The SQLite database: the `dbbardata` and `dbbaroverview` tables. -/
structure Store where
  bars : List DbRow
  overview : List OverviewRow
deriving DecidableEq

/-- memcmp order of two same-format stored datetime texts: lexicographic in
(date, time). -/
def dtle (a b : DateTime) : Prop :=
  a.date < b.date ∨ (a.date = b.date ∧ a.time ≤ b.time)

instance (a b : DateTime) : Decidable (dtle a b) := by
  unfold dtle; infer_instance

def dtMax (a b : DateTime) : DateTime := if dtle a b then b else a

def dtMin (a b : DateTime) : DateTime := if dtle a b then a else b

/-- `ORDER BY datetime` comparison between two stored rows. -/
def rowLe (a b : DbRow) : Prop := dtle a.dt b.dt

instance : DecidableRel rowLe := fun a b => by unfold rowLe dtle; infer_instance

instance : IsTotal DbRow rowLe := ⟨by intro a b; unfold rowLe dtle; omega⟩

instance : IsTrans DbRow rowLe := ⟨by intro a b c; unfold rowLe dtle; omega⟩

/-- WHERE symbol = ? AND exchange = ? AND interval = ?. -/
def keyPredB (sym ex iv : String) (r : DbRow) : Bool :=
  r.symbol == sym && r.exchange == ex && r.interval == iv

/-- The incremental re-query condition `AND datetime > ?`: the parameter is a
`T`-separated isoformat string, stored values are space-separated, so the
SQLite text comparison holds iff the stored date is strictly later (see the
header comment). `none` means the condition is absent (full query). -/
def sinceLt (since : Option DateTime) (r : DbRow) : Bool :=
  match since with
  | none => true
  | some t => decide (t.date < r.dt.date)

/-- SELECT datetime, open_price, high_price, low_price, close_price, volume
FROM dbbardata WHERE symbol = ? AND exchange = ? AND interval = '1m'
[AND datetime > ?] ORDER BY datetime. -/
def query1m (st : Store) (sym ex : String) (since : Option DateTime) : List DbRow :=
  List.insertionSort rowLe
    (st.bars.filter (fun r => keyPredB sym ex "1m" r && sinceLt since r))

/-- SQL MAX(datetime) over a list of stored rows. -/
def maxDtList (l : List DbRow) : Option DateTime :=
  match l with
  | [] => none
  | r :: rs => some (rs.foldl (fun m x => dtMax m x.dt) r.dt)

/-- SQL MIN(datetime) over a list of stored rows. -/
def minDtList (l : List DbRow) : Option DateTime :=
  match l with
  | [] => none
  | r :: rs => some (rs.foldl (fun m x => dtMin m x.dt) r.dt)

/-- `get_last_aggregation_time`: SELECT MAX(datetime) FROM dbbardata WHERE
symbol/exchange/interval match, parsed back into a datetime (`None` iff no
rows). -/
def lastAggTime (st : Store) (sym ex iv : String) : Option DateTime :=
  maxDtList (st.bars.filter (keyPredB sym ex iv))

/-- The dict appended to `hourly_data`: timestamp is the start of the hour
`ch = (date, hour)`, interval '1h', turnover and open_interest 0. -/
def mkHourlyRow (sym ex : String) (ch : Nat × Nat) (vol o h l c : ℚ) : DbRow :=
  { symbol := sym, exchange := ex, dt := ⟨ch.1, ch.2 * 3600⟩, interval := "1h",
    volume := vol, turnover := 0, open_interest := 0,
    open_price := o, high_price := h, low_price := l, close_price := c }

/-- Loop state of `aggregate_hourly_data` (lines 226-231 of
preprocess_daily_data.py; identical in engine.py). -/
structure HourlyState where
  hourly_data : List DbRow
  hourly_open : ℚ
  hourly_high : ℚ
  hourly_low : ℚ
  hourly_close : ℚ
  hourly_volume : ℚ
  index : Nat
  current_hour : Option (Nat × Nat)
deriving DecidableEq

/-- Initial hourly loop state: high 0, low 999999999999999, volume 0,
index 0, current_hour None (open/close are unread before first assignment;
0 is an unobservable placeholder). -/
def initHourly : HourlyState := ⟨[], 0, 0, 999999999999999, 0, 0, 0, none⟩

/-- One iteration of the hourly aggregation loop.  `hour_key` models
`dt.strftime('%Y%m%d %H')` as the pair (date, hour).  In the source, a flush
with `current_hour is None` and `index > 0` is unreachable (index becomes
positive only together with `current_hour` being set); the `none` match arm
mirrors that unreachable configuration by not flushing. -/
def hourlyStep (sym ex : String) (s : HourlyState) (b : DbRow) : HourlyState :=
  let hour_key : Nat × Nat := (b.dt.date, b.dt.time / 3600)
  if s.current_hour ≠ some hour_key then
    let flushed : List DbRow :=
      match s.current_hour with
      | some ch =>
        if 0 < s.index then
          s.hourly_data ++
            [mkHourlyRow sym ex ch s.hourly_volume s.hourly_open s.hourly_high
              s.hourly_low s.hourly_close]
        else s.hourly_data
      | none => s.hourly_data
    { hourly_data := flushed, hourly_open := b.open_price,
      hourly_high := b.high_price, hourly_low := b.low_price,
      hourly_close := b.close_price, hourly_volume := b.volume,
      index := 1, current_hour := some hour_key }
  else
    { s with hourly_high := max b.high_price s.hourly_high,
             hourly_low := min b.low_price s.hourly_low,
             hourly_close := b.close_price,
             hourly_volume := s.hourly_volume + b.volume,
             index := s.index + 1 }

/-- The trailing `if index > 0 and current_hour:` flush of the last open hour. -/
def hourlyTail (sym ex : String) (s : HourlyState) : List DbRow :=
  match s.current_hour with
  | some ch =>
    if 0 < s.index then
      [mkHourlyRow sym ex ch s.hourly_volume s.hourly_open s.hourly_high
        s.hourly_low s.hourly_close]
    else []
  | none => []

/-- The hourly aggregation of an ordered list of 1-minute rows (the loop over
`rows` plus the final flush). -/
def aggregateHourlyRows (sym ex : String) (rows : List DbRow) : List DbRow :=
  let s := rows.foldl (hourlyStep sym ex) initHourly
  s.hourly_data ++ hourlyTail sym ex s

/-- The dict appended to `daily_data`: interval 'd', turnover and
open_interest 0. -/
def mkDailyRow (sym ex : String) (dt : DateTime) (vol o h l c : ℚ) : DbRow :=
  { symbol := sym, exchange := ex, dt := dt, interval := "d",
    volume := vol, turnover := 0, open_interest := 0,
    open_price := o, high_price := h, low_price := l, close_price := c }

/-- 14:59:00 as a second of the day. -/
def cutoffTime : Nat := 53940

/-- Loop state of `aggregate_daily_data` (lines 411-416). -/
structure DailyState where
  daily_data : List DbRow
  daily_open : ℚ
  daily_high : ℚ
  daily_low : ℚ
  daily_close : ℚ
  daily_volume : ℚ
  index : Nat
  last_data : Option DbRow
deriving DecidableEq

/-- Initial daily loop state: high 0, low 999999999999999, volume 0, index 0,
last_data None (open/close unread before first assignment). -/
def initDaily : DailyState := ⟨[], 0, 0, 999999999999999, 0, 0, 0, none⟩

/-- One iteration of the daily aggregation loop (lines 418-464): update the
running OHLCV; when the bar's wall-clock time is 14:59:00, emit the day's row
timestamped at the bar's own date, 15:00:00 and reset the accumulators. -/
def dailyStep (sym ex : String) (s : DailyState) (b : DbRow) : DailyState :=
  let daily_open := if s.index = 0 then b.open_price else s.daily_open
  let daily_high := max b.high_price s.daily_high
  let daily_low := min b.low_price s.daily_low
  let daily_close := b.close_price
  let daily_volume := s.daily_volume + b.volume
  if b.dt.time = cutoffTime then
    { daily_data := s.daily_data ++
        [mkDailyRow sym ex ⟨b.dt.date, 54000⟩ daily_volume daily_open daily_high
          daily_low b.close_price],
      daily_open := daily_open, daily_high := 0, daily_low := 999999999999999,
      daily_close := b.close_price, daily_volume := 0, index := 0,
      last_data := some b }
  else
    { daily_data := s.daily_data, daily_open := daily_open,
      daily_high := daily_high, daily_low := daily_low,
      daily_close := daily_close, daily_volume := daily_volume,
      index := s.index + 1, last_data := some b }

/-- The trailing partial-day flush (lines 466-484):
`if index != 0 and (not last_data or last_data[1] != '14:59:00')`, emitting a
row timestamped with the last bar's own date and time.  With
`last_data = None` and `index != 0` the source would fault reading
`last_data[6]`; that configuration is unreachable (every iteration sets
`last_data`), and the `none` arm mirrors it by not flushing. -/
def dailyTail (sym ex : String) (s : DailyState) : List DbRow :=
  match s.last_data with
  | some lb =>
    if s.index ≠ 0 ∧ lb.dt.time ≠ cutoffTime then
      [mkDailyRow sym ex lb.dt s.daily_volume s.daily_open s.daily_high
        s.daily_low lb.close_price]
    else []
  | none => []

/-- The daily aggregation of an ordered list of 1-minute rows (the loop over
`rows` plus the trailing partial-day flush). -/
def aggregateDailyRows (sym ex : String) (rows : List DbRow) : List DbRow :=
  let s := rows.foldl (dailyStep sym ex) initDaily
  s.daily_data ++ dailyTail sym ex s

/-- DELETE FROM dbbardata WHERE symbol/exchange/interval match. -/
def deleteRows (st : Store) (sym ex iv : String) : Store :=
  { st with bars := st.bars.filter (fun r => !(keyPredB sym ex iv r)) }

/-- SELECT COUNT(*) FROM dbbardata WHERE symbol/exchange/interval match. -/
def countKey (st : Store) (sym ex iv : String) : Nat :=
  (st.bars.filter (keyPredB sym ex iv)).length

/-- The `BarDataPreprocessor` strategy selection (lines 357-384 for daily,
180-199 for hourly): incremental resume when rows exist, force is off and
incremental is on; delete-then-fresh when rows exist and force is on;
otherwise fresh.  Returns the (possibly delete-mutated) store and the
`start_time` used by the re-query. -/
def resolveStartTime (st : Store) (sym ex iv : String) (force incr : Bool) :
    Store × Option DateTime :=
  let existing_count := countKey st sym ex iv
  if 0 < existing_count ∧ force = false ∧ incr = true then
    (st, lastAggTime st sym ex iv)
  else if 0 < existing_count ∧ force = true then
    (deleteRows st sym ex iv, none)
  else (st, none)

/-- WHERE clause of the dbbaroverview queries. -/
def okeyB (sym ex iv : String) (o : OverviewRow) : Bool :=
  o.symbol == sym && o.exchange == ex && o.interval == iv

/-- Overview maintenance (lines 501-533): recompute COUNT/MIN/MAX over the
bar table for the key by direct query, then UPDATE the matching overview rows
in place if one exists, else INSERT a new row. -/
def updateOverview (st : Store) (sym ex iv : String) : Store :=
  let key_rows := st.bars.filter (keyPredB sym ex iv)
  let cnt := key_rows.length
  let mn := minDtList key_rows
  let mx := maxDtList key_rows
  if st.overview.any (okeyB sym ex iv) then
    { st with overview := st.overview.map (fun o =>
        if okeyB sym ex iv o then { o with count := cnt, start := mn, endTime := mx }
        else o) }
  else
    { st with overview := st.overview ++ [⟨sym, ex, iv, cnt, mn, mx⟩] }

/-- The `if daily_data:` / `if hourly_data:` tail of every aggregation
routine: batch-INSERT the new rows, refresh the overview row, and return the
number of rows produced. -/
def insertPhase (st : Store) (sym ex iv : String) (newRows : List DbRow) :
    Store × Nat :=
  if newRows = [] then (st, 0)
  else (updateOverview { st with bars := st.bars ++ newRows } sym ex iv,
        newRows.length)

/-- `BarDataPreprocessor.aggregate_hourly_data` / `aggregate_daily_data`: the
two source routines are line-for-line identical up to the aggregation fold and
the interval string, so both are obtained by instantiating this one
definition. -/
def runAggregation (agg : String → String → List DbRow → List DbRow)
    (iv : String) (st : Store) (sym ex : String) (force incr : Bool) :
    Store × Nat :=
  let p := resolveStartTime st sym ex iv force incr
  let rows := query1m p.1 sym ex p.2
  if rows = [] then (p.1, 0)
  else insertPhase p.1 sym ex iv (agg sym ex rows)

/-- `BarDataPreprocessor.aggregate_hourly_data` (lines 157-341). -/
def aggregate_hourly_data (st : Store) (sym ex : String) (force incr : Bool) :
    Store × Nat :=
  runAggregation aggregateHourlyRows "1h" st sym ex force incr

/-- `BarDataPreprocessor.aggregate_daily_data` (lines 343-536). -/
def aggregate_daily_data (st : Store) (sym ex : String) (force incr : Bool) :
    Store × Nat :=
  runAggregation aggregateDailyRows "d" st sym ex force incr

/-- `ManagerEngine._aggregate_hourly_data` / `_aggregate_daily_data`
(engine.py lines 670-852 and 854-1045): force deletes and regenerates;
otherwise any existing rows make the routine skip and return 0; a fresh run
queries the full 1-minute history (no resume filter).  The two routines are
again identical up to the fold and interval string.  `me_runCore` is the
query-aggregate-insert body shared by the force path (after the delete, the
key has zero rows) and the first-time path; `me_runAggregation` is the
branch structure around it: after a force delete `existing_count` is reset
to 0 and the body runs, without force any existing rows cause a skip. -/
def me_runCore (agg : String → String → List DbRow → List DbRow)
    (iv : String) (st1 : Store) (sym ex : String) : Store × Nat :=
  let rows := query1m st1 sym ex none
  if rows = [] then (st1, 0)
  else insertPhase st1 sym ex iv (agg sym ex rows)

def me_runAggregation (agg : String → String → List DbRow → List DbRow)
    (iv : String) (st : Store) (sym ex : String) (force : Bool) :
    Store × Nat :=
  if 0 < countKey st sym ex iv ∧ force = true then
    me_runCore agg iv (deleteRows st sym ex iv) sym ex
  else if countKey st sym ex iv = 0 then
    me_runCore agg iv st sym ex
  else (st, 0)

/-- `ManagerEngine._aggregate_hourly_data`. -/
def me_aggregate_hourly_data (st : Store) (sym ex : String) (force : Bool) :
    Store × Nat :=
  me_runAggregation aggregateHourlyRows "1h" st sym ex force

/-- `ManagerEngine._aggregate_daily_data`. -/
def me_aggregate_daily_data (st : Store) (sym ex : String) (force : Bool) :
    Store × Nat :=
  me_runAggregation aggregateDailyRows "d" st sym ex force

/-- Maximum of a rational and a list of rationals (for stating reduction
claims). -/
def qListMax (x : ℚ) (l : List ℚ) : ℚ := l.foldl max x

/-- Minimum of a rational and a list of rationals. -/
def qListMin (x : ℚ) (l : List ℚ) : ℚ := l.foldl min x

/-- Sum of a rational and a list of rationals. -/
def qListSum (x : ℚ) (l : List ℚ) : ℚ := l.foldl (· + ·) x

/-! Generic list and fold helpers. -/

lemma exists_concat_of_ne_nil {α : Type} :
    ∀ (l : List α), l ≠ [] → ∃ init lb, l = init ++ [lb]
  | [], h => absurd rfl h
  | [x], _ => ⟨[], x, rfl⟩
  | x :: y :: t, _ => by
      obtain ⟨init, lb, h⟩ := exists_concat_of_ne_nil (y :: t) (by simp)
      exact ⟨x :: init, lb, by rw [List.cons_append, ← h]⟩

instance : Std.Associative (fun a b : ℚ => max a b) := ⟨max_assoc⟩

instance : Std.Associative (fun a b : ℚ => min a b) := ⟨min_assoc⟩

instance : Std.Associative (fun a b : ℚ => a + b) := ⟨add_assoc⟩

lemma qListMax_cons (c x : ℚ) (l : List ℚ) :
    qListMax c (x :: l) = max c (qListMax x l) := by
  unfold qListMax
  rw [List.foldl_cons]
  exact List.foldl_assoc

lemma qListMin_cons (c x : ℚ) (l : List ℚ) :
    qListMin c (x :: l) = min c (qListMin x l) := by
  unfold qListMin
  rw [List.foldl_cons]
  exact List.foldl_assoc

lemma qListSum_cons (c x : ℚ) (l : List ℚ) :
    qListSum c (x :: l) = c + qListSum x l := by
  unfold qListSum
  rw [List.foldl_cons]
  exact List.foldl_assoc

lemma foldl_flipmax : ∀ (l : List ℚ) (c : ℚ),
    l.foldl (fun a v => max v a) c = l.foldl max c := by
  intro l
  induction l with
  | nil => intro c; rfl
  | cons x t ih =>
    intro c
    rw [List.foldl_cons, List.foldl_cons, ih, max_comm]

lemma foldl_flipmin : ∀ (l : List ℚ) (c : ℚ),
    l.foldl (fun a v => min v a) c = l.foldl min c := by
  intro l
  induction l with
  | nil => intro c; rfl
  | cons x t ih =>
    intro c
    rw [List.foldl_cons, List.foldl_cons, ih, min_comm]

lemma foldl_const_last {α β : Type} (f : α → β) :
    ∀ (l : List α) (c : β) (h : l ≠ []),
      l.foldl (fun _ x => f x) c = f (l.getLast h)
  | [], _, h => absurd rfl h
  | [x], c, _ => rfl
  | x :: y :: t, c, _ => by
      have h2 : y :: t ≠ [] := by simp
      rw [List.foldl_cons, foldl_const_last f (y :: t) (f x) h2,
        List.getLast_cons h2]

/-! Facts about the stored-datetime order and SQL MAX/MIN. -/

lemma dtle_refl (a : DateTime) : dtle a a := Or.inr ⟨rfl, le_refl _⟩

lemma dtle_trans {a b c : DateTime} : dtle a b → dtle b c → dtle a c := by
  unfold dtle; omega

lemma dtle_date {a b : DateTime} : dtle a b → a.date ≤ b.date := by
  unfold dtle; omega

lemma dtle_dtMax_left (a b : DateTime) : dtle a (dtMax a b) := by
  unfold dtMax
  split
  · assumption
  · exact dtle_refl a

lemma dtle_dtMax_right (a b : DateTime) : dtle b (dtMax a b) := by
  unfold dtMax
  split
  · exact dtle_refl b
  · rename_i h
    unfold dtle at h ⊢
    omega

lemma dtMax_cases (a b : DateTime) : dtMax a b = a ∨ dtMax a b = b := by
  unfold dtMax
  split
  · exact Or.inr rfl
  · exact Or.inl rfl

lemma foldl_dtMax_ub : ∀ (rs : List DbRow) (d : DateTime),
    dtle d (rs.foldl (fun m x => dtMax m x.dt) d) ∧
      ∀ r ∈ rs, dtle r.dt (rs.foldl (fun m x => dtMax m x.dt) d) := by
  intro rs
  induction rs with
  | nil => intro d; exact ⟨dtle_refl d, by simp⟩
  | cons x t ih =>
    intro d
    obtain ⟨h1, h2⟩ := ih (dtMax d x.dt)
    refine ⟨dtle_trans (dtle_dtMax_left d x.dt) h1, ?_⟩
    intro r hr
    rcases List.mem_cons.mp hr with hx | ht
    · rw [hx]
      exact dtle_trans (dtle_dtMax_right d x.dt) h1
    · exact h2 r ht

lemma foldl_dtMax_mem : ∀ (rs : List DbRow) (d : DateTime),
    rs.foldl (fun m x => dtMax m x.dt) d = d ∨
      ∃ r ∈ rs, rs.foldl (fun m x => dtMax m x.dt) d = r.dt := by
  intro rs
  induction rs with
  | nil => intro d; exact Or.inl rfl
  | cons x t ih =>
    intro d
    rw [List.foldl_cons]
    rcases ih (dtMax d x.dt) with h | ⟨r, hr, he⟩
    · rw [h]
      rcases dtMax_cases d x.dt with h' | h'
      · exact Or.inl h'
      · exact Or.inr ⟨x, List.mem_cons_self x t, h'⟩
    · exact Or.inr ⟨r, List.mem_cons_of_mem x hr, he⟩

lemma maxDtList_ub {l : List DbRow} {t : DateTime} (h : maxDtList l = some t) :
    ∀ r ∈ l, dtle r.dt t := by
  cases l with
  | nil => cases h
  | cons r rs =>
    unfold maxDtList at h
    obtain ht := Option.some.inj h
    intro x hx
    rcases List.mem_cons.mp hx with hx | hx
    · rw [hx, ← ht]
      exact (foldl_dtMax_ub rs r.dt).1
    · rw [← ht]
      exact (foldl_dtMax_ub rs r.dt).2 x hx

lemma maxDtList_mem {l : List DbRow} {t : DateTime} (h : maxDtList l = some t) :
    ∃ r ∈ l, r.dt = t := by
  cases l with
  | nil => cases h
  | cons r rs =>
    unfold maxDtList at h
    obtain ht := Option.some.inj h
    rcases foldl_dtMax_mem rs r.dt with h' | ⟨x, hx, he⟩
    · exact ⟨r, List.mem_cons_self r rs, by rw [← ht, h']⟩
    · exact ⟨x, List.mem_cons_of_mem r hx, by rw [← ht, he]⟩

lemma maxDtList_of_ne_nil {l : List DbRow} (h : l ≠ []) :
    ∃ t, maxDtList l = some t := by
  cases l with
  | nil => exact absurd rfl h
  | cons r rs => exact ⟨_, rfl⟩

lemma keyPredB_iff {sym ex iv : String} {r : DbRow} :
    keyPredB sym ex iv r = true ↔
      r.symbol = sym ∧ r.exchange = ex ∧ r.interval = iv := by
  simp [keyPredB, Bool.and_eq_true, beq_iff_eq, and_assoc]

lemma okeyB_iff {sym ex iv : String} {o : OverviewRow} :
    okeyB sym ex iv o = true ↔
      o.symbol = sym ∧ o.exchange = ex ∧ o.interval = iv := by
  simp [okeyB, Bool.and_eq_true, beq_iff_eq, and_assoc]

/-! Step equations for the two aggregation loops. -/

lemma dailyStep_cutoff (sym ex : String) (s : DailyState) (b : DbRow)
    (h : b.dt.time = cutoffTime) :
    dailyStep sym ex s b =
      { daily_data := s.daily_data ++
          [mkDailyRow sym ex ⟨b.dt.date, 54000⟩ (s.daily_volume + b.volume)
            (if s.index = 0 then b.open_price else s.daily_open)
            (max b.high_price s.daily_high) (min b.low_price s.daily_low)
            b.close_price],
        daily_open := if s.index = 0 then b.open_price else s.daily_open,
        daily_high := 0, daily_low := 999999999999999,
        daily_close := b.close_price, daily_volume := 0, index := 0,
        last_data := some b } := by
  simp only [dailyStep]
  rw [if_pos h]

lemma dailyStep_noncutoff (sym ex : String) (s : DailyState) (b : DbRow)
    (h : b.dt.time ≠ cutoffTime) :
    dailyStep sym ex s b =
      { daily_data := s.daily_data,
        daily_open := if s.index = 0 then b.open_price else s.daily_open,
        daily_high := max b.high_price s.daily_high,
        daily_low := min b.low_price s.daily_low,
        daily_close := b.close_price,
        daily_volume := s.daily_volume + b.volume,
        index := s.index + 1, last_data := some b } := by
  simp only [dailyStep]
  rw [if_neg h]

lemma hourlyStep_same (sym ex : String) (s : HourlyState) (b : DbRow)
    (h : s.current_hour = some (b.dt.date, b.dt.time / 3600)) :
    hourlyStep sym ex s b =
      { s with hourly_high := max b.high_price s.hourly_high,
               hourly_low := min b.low_price s.hourly_low,
               hourly_close := b.close_price,
               hourly_volume := s.hourly_volume + b.volume,
               index := s.index + 1 } := by
  simp only [hourlyStep]
  rw [if_neg (fun hc => hc h)]

lemma hourlyStep_new (sym ex : String) (s : HourlyState) (b : DbRow)
    (h : s.current_hour ≠ some (b.dt.date, b.dt.time / 3600)) :
    hourlyStep sym ex s b =
      { hourly_data :=
          match s.current_hour with
          | some ch =>
            if 0 < s.index then
              s.hourly_data ++
                [mkHourlyRow sym ex ch s.hourly_volume s.hourly_open
                  s.hourly_high s.hourly_low s.hourly_close]
            else s.hourly_data
          | none => s.hourly_data,
        hourly_open := b.open_price, hourly_high := b.high_price,
        hourly_low := b.low_price, hourly_close := b.close_price,
        hourly_volume := b.volume, index := 1,
        current_hour := some (b.dt.date, b.dt.time / 3600) } := by
  simp only [hourlyStep]
  rw [if_pos h]

lemma hourlyStep_ch (sym ex : String) (s : HourlyState) (b : DbRow) :
    (hourlyStep sym ex s b).current_hour = some (b.dt.date, b.dt.time / 3600) ∧
      0 < (hourlyStep sym ex s b).index := by
  by_cases h : s.current_hour = some (b.dt.date, b.dt.time / 3600)
  · rw [hourlyStep_same sym ex s b h]
    exact ⟨h, Nat.succ_pos _⟩
  · rw [hourlyStep_new sym ex s b h]
    exact ⟨rfl, Nat.one_pos⟩

lemma dailyStep_data (sym ex : String) (s : DailyState) (b : DbRow) :
    (dailyStep sym ex s b).daily_data = s.daily_data ∨
      ∃ dt v o h l c, (dailyStep sym ex s b).daily_data =
        s.daily_data ++ [mkDailyRow sym ex dt v o h l c] := by
  by_cases hx : b.dt.time = cutoffTime
  · rw [dailyStep_cutoff sym ex s b hx]
    exact Or.inr ⟨_, _, _, _, _, _, rfl⟩
  · rw [dailyStep_noncutoff sym ex s b hx]
    exact Or.inl rfl

lemma hourlyStep_data (sym ex : String) (s : HourlyState) (b : DbRow) :
    (hourlyStep sym ex s b).hourly_data = s.hourly_data ∨
      ∃ ch v o h l c, (hourlyStep sym ex s b).hourly_data =
        s.hourly_data ++ [mkHourlyRow sym ex ch v o h l c] := by
  by_cases h : s.current_hour = some (b.dt.date, b.dt.time / 3600)
  · rw [hourlyStep_same sym ex s b h]
    exact Or.inl rfl
  · rw [hourlyStep_new sym ex s b h]
    cases hc : s.current_hour with
    | none => exact Or.inl (by simp)
    | some ch =>
      by_cases hi : 0 < s.index
      · refine Or.inr ⟨ch, s.hourly_volume, s.hourly_open, s.hourly_high,
          s.hourly_low, s.hourly_close, ?_⟩
        simp [hi]
      · exact Or.inl (by simp [hi])

/-! Every row the aggregators produce carries the target key (symbol,
exchange, interval). -/

lemma mkDailyRow_key (sym ex : String) (dt : DateTime) (v o h l c : ℚ) :
    keyPredB sym ex "d" (mkDailyRow sym ex dt v o h l c) = true := by
  simp [keyPredB, mkDailyRow]

lemma mkHourlyRow_key (sym ex : String) (ch : Nat × Nat) (v o h l c : ℚ) :
    keyPredB sym ex "1h" (mkHourlyRow sym ex ch v o h l c) = true := by
  simp [keyPredB, mkHourlyRow]

lemma daily_fold_key (sym ex : String) :
    ∀ (l : List DbRow) (s : DailyState),
      (∀ r ∈ s.daily_data, keyPredB sym ex "d" r = true) →
      ∀ r ∈ (l.foldl (dailyStep sym ex) s).daily_data,
        keyPredB sym ex "d" r = true := by
  intro l
  induction l with
  | nil => intro s h; exact h
  | cons x t ih =>
    intro s h
    rw [List.foldl_cons]
    apply ih
    intro r hr
    rcases dailyStep_data sym ex s x with he | ⟨dt, v, o, hh, ll, c, he⟩
    · rw [he] at hr
      exact h r hr
    · rw [he] at hr
      rcases List.mem_append.mp hr with h1 | h1
      · exact h r h1
      · rw [List.mem_singleton.mp h1]
        exact mkDailyRow_key sym ex dt v o hh ll c

lemma hourly_fold_key (sym ex : String) :
    ∀ (l : List DbRow) (s : HourlyState),
      (∀ r ∈ s.hourly_data, keyPredB sym ex "1h" r = true) →
      ∀ r ∈ (l.foldl (hourlyStep sym ex) s).hourly_data,
        keyPredB sym ex "1h" r = true := by
  intro l
  induction l with
  | nil => intro s h; exact h
  | cons x t ih =>
    intro s h
    rw [List.foldl_cons]
    apply ih
    intro r hr
    rcases hourlyStep_data sym ex s x with he | ⟨ch, v, o, hh, ll, c, he⟩
    · rw [he] at hr
      exact h r hr
    · rw [he] at hr
      rcases List.mem_append.mp hr with h1 | h1
      · exact h r h1
      · rw [List.mem_singleton.mp h1]
        exact mkHourlyRow_key sym ex ch v o hh ll c

lemma dailyTail_sub (sym ex : String) (s : DailyState) :
    dailyTail sym ex s = [] ∨
      ∃ dt v o h l c, dailyTail sym ex s = [mkDailyRow sym ex dt v o h l c] := by
  unfold dailyTail
  cases s.last_data with
  | none => exact Or.inl rfl
  | some lb =>
    by_cases hcond : s.index ≠ 0 ∧ lb.dt.time ≠ cutoffTime
    · exact Or.inr ⟨lb.dt, s.daily_volume, s.daily_open, s.daily_high,
        s.daily_low, lb.close_price, if_pos hcond⟩
    · exact Or.inl (if_neg hcond)

lemma hourlyTail_sub (sym ex : String) (s : HourlyState) :
    hourlyTail sym ex s = [] ∨
      ∃ ch v o h l c, hourlyTail sym ex s = [mkHourlyRow sym ex ch v o h l c] := by
  unfold hourlyTail
  cases s.current_hour with
  | none => exact Or.inl rfl
  | some ch =>
    by_cases hi : 0 < s.index
    · exact Or.inr ⟨ch, s.hourly_volume, s.hourly_open, s.hourly_high,
        s.hourly_low, s.hourly_close, if_pos hi⟩
    · exact Or.inl (if_neg hi)

lemma aggregateDailyRows_key (sym ex : String) (rows : List DbRow) :
    ∀ r ∈ aggregateDailyRows sym ex rows, keyPredB sym ex "d" r = true := by
  intro r hr
  unfold aggregateDailyRows at hr
  rcases List.mem_append.mp hr with h1 | h1
  · exact daily_fold_key sym ex rows initDaily (by intro r h; cases h) r h1
  · rcases dailyTail_sub sym ex (rows.foldl (dailyStep sym ex) initDaily) with
      he | ⟨dt, v, o, hh, ll, c, he⟩
    · rw [he] at h1
      cases h1
    · rw [he] at h1
      rw [List.mem_singleton.mp h1]
      exact mkDailyRow_key sym ex dt v o hh ll c

lemma aggregateHourlyRows_key (sym ex : String) (rows : List DbRow) :
    ∀ r ∈ aggregateHourlyRows sym ex rows, keyPredB sym ex "1h" r = true := by
  intro r hr
  unfold aggregateHourlyRows at hr
  rcases List.mem_append.mp hr with h1 | h1
  · exact hourly_fold_key sym ex rows initHourly (by intro r h; cases h) r h1
  · rcases hourlyTail_sub sym ex (rows.foldl (hourlyStep sym ex) initHourly) with
      he | ⟨ch, v, o, hh, ll, c, he⟩
    · rw [he] at h1
      cases h1
    · rw [he] at h1
      rw [List.mem_singleton.mp h1]
      exact mkHourlyRow_key sym ex ch v o hh ll c

/-! For a non-empty input stream, the aggregated output always contains a row
carrying the calendar date of the stream's last bar (either the 14:59:00
flush row, dated at that bar's date, or the trailing flush row, timestamped
with the last bar's own datetime / current hour). -/

lemma daily_mem_lastdate (sym ex : String) (init : List DbRow) (lb : DbRow) :
    ∃ r ∈ aggregateDailyRows sym ex (init ++ [lb]), r.dt.date = lb.dt.date := by
  unfold aggregateDailyRows
  rw [List.foldl_append, List.foldl_cons, List.foldl_nil]
  by_cases hx : lb.dt.time = cutoffTime
  · rw [dailyStep_cutoff sym ex _ lb hx]
    refine ⟨mkDailyRow sym ex ⟨lb.dt.date, 54000⟩
      ((init.foldl (dailyStep sym ex) initDaily).daily_volume + lb.volume)
      (if (init.foldl (dailyStep sym ex) initDaily).index = 0 then lb.open_price
        else (init.foldl (dailyStep sym ex) initDaily).daily_open)
      (max lb.high_price (init.foldl (dailyStep sym ex) initDaily).daily_high)
      (min lb.low_price (init.foldl (dailyStep sym ex) initDaily).daily_low)
      lb.close_price, ?_, rfl⟩
    apply List.mem_append_left
    exact List.mem_append_right _ (List.mem_singleton_self _)
  · rw [dailyStep_noncutoff sym ex _ lb hx]
    refine ⟨mkDailyRow sym ex lb.dt
      ((init.foldl (dailyStep sym ex) initDaily).daily_volume + lb.volume)
      (if (init.foldl (dailyStep sym ex) initDaily).index = 0 then lb.open_price
        else (init.foldl (dailyStep sym ex) initDaily).daily_open)
      (max lb.high_price (init.foldl (dailyStep sym ex) initDaily).daily_high)
      (min lb.low_price (init.foldl (dailyStep sym ex) initDaily).daily_low)
      lb.close_price, ?_, rfl⟩
    apply List.mem_append_right
    simp [dailyTail, hx]

lemma hourly_mem_lastdate (sym ex : String) (init : List DbRow) (lb : DbRow) :
    ∃ r ∈ aggregateHourlyRows sym ex (init ++ [lb]), r.dt.date = lb.dt.date := by
  unfold aggregateHourlyRows
  rw [List.foldl_append, List.foldl_cons, List.foldl_nil]
  obtain ⟨hch, hidx⟩ :=
    hourlyStep_ch sym ex (init.foldl (hourlyStep sym ex) initHourly) lb
  refine ⟨mkHourlyRow sym ex (lb.dt.date, lb.dt.time / 3600)
    (hourlyStep sym ex (init.foldl (hourlyStep sym ex) initHourly) lb).hourly_volume
    (hourlyStep sym ex (init.foldl (hourlyStep sym ex) initHourly) lb).hourly_open
    (hourlyStep sym ex (init.foldl (hourlyStep sym ex) initHourly) lb).hourly_high
    (hourlyStep sym ex (init.foldl (hourlyStep sym ex) initHourly) lb).hourly_low
    (hourlyStep sym ex (init.foldl (hourlyStep sym ex) initHourly) lb).hourly_close,
    ?_, rfl⟩
  apply List.mem_append_right
  simp [hourlyTail, hch, hidx]

/-! Query lemmas. -/

lemma query1m_sorted (st : Store) (sym ex : String) (s : Option DateTime) :
    List.Sorted rowLe (query1m st sym ex s) :=
  List.sorted_insertionSort rowLe _

lemma query1m_mem {st : Store} {sym ex : String} {s : Option DateTime} {b : DbRow} :
    b ∈ query1m st sym ex s ↔
      b ∈ st.bars ∧ keyPredB sym ex "1m" b = true ∧ sinceLt s b = true := by
  unfold query1m
  rw [(List.perm_insertionSort rowLe _).mem_iff, List.mem_filter]
  simp [Bool.and_eq_true, and_assoc]

lemma query1m_eq_nil {st : Store} {sym ex : String} {s : Option DateTime}
    (h : ∀ b ∈ st.bars, keyPredB sym ex "1m" b = true → sinceLt s b = false) :
    query1m st sym ex s = [] := by
  unfold query1m
  have hf : st.bars.filter (fun r => keyPredB sym ex "1m" r && sinceLt s r) = [] := by
    apply List.filter_eq_nil_iff.mpr
    intro a ha
    simp only [Bool.and_eq_true, not_and]
    intro hk
    rw [h a ha hk]
    simp
  rw [hf]
  rfl

lemma sorted_concat_dtle {init : List DbRow} {lb b : DbRow}
    (hs : List.Sorted rowLe (init ++ [lb])) (hb : b ∈ init ++ [lb]) :
    dtle b.dt lb.dt := by
  rcases List.mem_append.mp hb with h1 | h1
  · exact (List.pairwise_append.mp hs).2.2 b h1 lb (List.mem_singleton_self lb)
  · rw [List.mem_singleton.mp h1]
    exact dtle_refl _

/-! Stage lemmas for the run wrappers. -/

lemma updateOverview_bars (st : Store) (sym ex iv : String) :
    (updateOverview st sym ex iv).bars = st.bars := by
  unfold updateOverview
  split <;> rfl

lemma deleteRows_overview (st : Store) (sym ex iv : String) :
    (deleteRows st sym ex iv).overview = st.overview := rfl

lemma resolve_noforce (st : Store) (sym ex iv : String) (incr : Bool) :
    resolveStartTime st sym ex iv false incr =
      (st, if 0 < countKey st sym ex iv ∧ incr = true
        then lastAggTime st sym ex iv else none) := by
  unfold resolveStartTime
  by_cases h : 0 < countKey st sym ex iv ∧ incr = true
  · rw [if_pos ⟨h.1, rfl, h.2⟩, if_pos h]
  · rw [if_neg (fun hc => h ⟨hc.1, hc.2.2⟩), if_neg h,
      if_neg (fun hc => Bool.false_ne_true hc.2)]

lemma resolve_force (st : Store) (sym ex iv : String) (incr : Bool)
    (h : 0 < countKey st sym ex iv) :
    resolveStartTime st sym ex iv true incr = (deleteRows st sym ex iv, none) := by
  unfold resolveStartTime
  rw [if_neg (fun hc => by cases hc.2.1), if_pos ⟨h, rfl⟩]

lemma countKey_deleteRows (st : Store) (sym ex iv : String) :
    countKey (deleteRows st sym ex iv) sym ex iv = 0 := by
  unfold countKey deleteRows
  simp only [List.length_eq_zero]
  apply List.filter_eq_nil_iff.mpr
  intro a ha
  have := (List.mem_filter.mp ha).2
  simp only [Bool.not_eq_true'] at this
  simp [this]

lemma resolve_fresh (st : Store) (sym ex iv : String) (force incr : Bool)
    (h : countKey st sym ex iv = 0) :
    resolveStartTime st sym ex iv force incr = (st, none) := by
  unfold resolveStartTime
  rw [if_neg (by omega), if_neg (by omega)]

/-! Fold lemmas: closed forms for the loop state after consuming a run of
bars that triggers no flush (daily) or stays within one hour (hourly). -/

lemma daily_fold_noflush (sym ex : String) :
    ∀ (l : List DbRow) (s : DailyState),
      (∀ x ∈ l, x.dt.time ≠ cutoffTime) → s.index ≠ 0 →
      l.foldl (dailyStep sym ex) s =
        { daily_data := s.daily_data,
          daily_open := s.daily_open,
          daily_high := l.foldl (fun a x => max x.high_price a) s.daily_high,
          daily_low := l.foldl (fun a x => min x.low_price a) s.daily_low,
          daily_close := l.foldl (fun _ x => x.close_price) s.daily_close,
          daily_volume := l.foldl (fun a x => a + x.volume) s.daily_volume,
          index := s.index + l.length,
          last_data := l.foldl (fun _ x => some x) s.last_data } := by
  intro l
  induction l with
  | nil =>
    intro s _ _
    simp
  | cons x t ih =>
    intro s hx hidx
    rw [List.foldl_cons, dailyStep_noncutoff sym ex s x (hx x (List.mem_cons_self x t)),
      ih _ (fun y hy => hx y (List.mem_cons_of_mem x hy)) (Nat.succ_ne_zero _)]
    simp only [List.foldl_cons, if_neg hidx, List.length_cons]
    congr 1
    omega

lemma hourly_fold_same (sym ex : String) :
    ∀ (l : List DbRow) (s : HourlyState) (k : Nat × Nat),
      s.current_hour = some k →
      (∀ x ∈ l, (x.dt.date, x.dt.time / 3600) = k) →
      l.foldl (hourlyStep sym ex) s =
        { hourly_data := s.hourly_data,
          hourly_open := s.hourly_open,
          hourly_high := l.foldl (fun a x => max x.high_price a) s.hourly_high,
          hourly_low := l.foldl (fun a x => min x.low_price a) s.hourly_low,
          hourly_close := l.foldl (fun _ x => x.close_price) s.hourly_close,
          hourly_volume := l.foldl (fun a x => a + x.volume) s.hourly_volume,
          index := s.index + l.length,
          current_hour := some k } := by
  intro l
  induction l with
  | nil =>
    intro s k hk _
    simp [← hk]
  | cons x t ih =>
    intro s k hk hx
    have hxk : s.current_hour = some (x.dt.date, x.dt.time / 3600) := by
      rw [hk, hx x (List.mem_cons_self x t)]
    rw [List.foldl_cons, hourlyStep_same sym ex s x hxk,
      ih _ k (by simpa using hk) (fun y hy => hx y (List.mem_cons_of_mem x hy))]
    simp only [List.foldl_cons, List.length_cons]
    congr 1
    omega

lemma daily_fold_length (sym ex : String) :
    ∀ (l : List DbRow) (s : DailyState),
      ((l.foldl (dailyStep sym ex) s).daily_data).length =
        s.daily_data.length + l.countP (fun x => x.dt.time == cutoffTime) := by
  intro l
  induction l with
  | nil => intro s; simp
  | cons x t ih =>
    intro s
    rw [List.foldl_cons, ih]
    by_cases hx : x.dt.time = cutoffTime
    · rw [dailyStep_cutoff sym ex s x hx]
      simp [List.countP_cons, hx]
      omega
    · rw [dailyStep_noncutoff sym ex s x hx]
      simp [List.countP_cons, hx]

/-! Overview maintenance: after `updateOverview`, the key has exactly one
overview row carrying the freshly recomputed COUNT/MIN/MAX (provided the key
had at most one row before, since the SQL UPDATE touches every matching row). -/

lemma okeyB_update (sym ex iv : String) (o : OverviewRow) (cnt : Nat)
    (mn mx : Option DateTime) :
    okeyB sym ex iv { o with count := cnt, start := mn, endTime := mx } =
      okeyB sym ex iv o := rfl

lemma filter_map_update (sym ex iv : String) (cnt : Nat) (mn mx : Option DateTime) :
    ∀ (l : List OverviewRow),
      (l.map (fun o => if okeyB sym ex iv o
          then { o with count := cnt, start := mn, endTime := mx } else o)).filter
        (okeyB sym ex iv) =
      (l.filter (okeyB sym ex iv)).map
        (fun o => { o with count := cnt, start := mn, endTime := mx }) := by
  intro l
  induction l with
  | nil => rfl
  | cons o t ih =>
    by_cases ho : okeyB sym ex iv o = true
    · simp only [List.map_cons, if_pos ho]
      rw [List.filter_cons_of_pos (by rw [okeyB_update]; exact ho),
        List.filter_cons_of_pos ho, List.map_cons, ih]
    · simp only [List.map_cons, if_neg ho]
      rw [List.filter_cons_of_neg (by simpa using ho),
        List.filter_cons_of_neg (by simpa using ho), ih]

lemma length_le_one_ne_nil {α : Type} {l : List α} (h1 : l.length ≤ 1)
    (h2 : l ≠ []) : ∃ x, l = [x] := by
  cases l with
  | nil => exact absurd rfl h2
  | cons x t =>
    cases t with
    | nil => exact ⟨x, rfl⟩
    | cons y u => simp at h1

lemma updateOverview_spec (st : Store) (sym ex iv : String)
    (h : (st.overview.filter (okeyB sym ex iv)).length ≤ 1) :
    (updateOverview st sym ex iv).overview.filter (okeyB sym ex iv) =
      [⟨sym, ex, iv, (st.bars.filter (keyPredB sym ex iv)).length,
        minDtList (st.bars.filter (keyPredB sym ex iv)),
        maxDtList (st.bars.filter (keyPredB sym ex iv))⟩] := by
  unfold updateOverview
  by_cases hany : st.overview.any (okeyB sym ex iv) = true
  · rw [if_pos hany]
    show (st.overview.map _).filter _ = _
    rw [filter_map_update]
    have hne : st.overview.filter (okeyB sym ex iv) ≠ [] := by
      obtain ⟨y, hy, hky⟩ := List.any_eq_true.mp hany
      exact List.ne_nil_of_mem (List.mem_filter.mpr ⟨hy, hky⟩)
    obtain ⟨x, hx⟩ := length_le_one_ne_nil h hne
    have hxm : x ∈ st.overview.filter (okeyB sym ex iv) := by
      rw [hx]
      exact List.mem_singleton_self x
    obtain ⟨h1, h2, h3⟩ := okeyB_iff.mp (List.mem_filter.mp hxm).2
    rw [hx]
    simp only [List.map_cons, List.map_nil]
    congr 1
    rw [show ({ x with count := _, start := _, endTime := _ } : OverviewRow) =
      ⟨x.symbol, x.exchange, x.interval, _, _, _⟩ from rfl, h1, h2, h3]
  · rw [if_neg hany]
    show (st.overview ++ _).filter _ = _
    rw [List.filter_append]
    have hfe : st.overview.filter (okeyB sym ex iv) = [] := by
      apply List.filter_eq_nil_iff.mpr
      intro a ha hk
      exact hany (List.any_eq_true.mpr ⟨a, ha, hk⟩)
    rw [hfe]
    simp [okeyB]

lemma resolve_overview (st : Store) (sym ex iv : String) (force incr : Bool) :
    (resolveStartTime st sym ex iv force incr).1.overview = st.overview := by
  simp only [resolveStartTime]
  split_ifs <;> rfl

lemma runAggregation_eq (agg : String → String → List DbRow → List DbRow)
    (iv : String) (st : Store) (sym ex : String) (force incr : Bool) :
    runAggregation agg iv st sym ex force incr =
      if query1m (resolveStartTime st sym ex iv force incr).1 sym ex
          (resolveStartTime st sym ex iv force incr).2 = [] then
        ((resolveStartTime st sym ex iv force incr).1, 0)
      else
        insertPhase (resolveStartTime st sym ex iv force incr).1 sym ex iv
          (agg sym ex (query1m (resolveStartTime st sym ex iv force incr).1 sym ex
            (resolveStartTime st sym ex iv force incr).2)) := rfl

lemma runAggregation_overview (agg : String → String → List DbRow → List DbRow)
    (iv : String) (st : Store) (sym ex : String) (force incr : Bool)
    (h : (st.overview.filter (okeyB sym ex iv)).length ≤ 1)
    (hn : 1 ≤ (runAggregation agg iv st sym ex force incr).2) :
    (runAggregation agg iv st sym ex force incr).1.overview.filter (okeyB sym ex iv) =
      [⟨sym, ex, iv,
        ((runAggregation agg iv st sym ex force incr).1.bars.filter
          (keyPredB sym ex iv)).length,
        minDtList ((runAggregation agg iv st sym ex force incr).1.bars.filter
          (keyPredB sym ex iv)),
        maxDtList ((runAggregation agg iv st sym ex force incr).1.bars.filter
          (keyPredB sym ex iv))⟩] := by
  rw [runAggregation_eq] at hn ⊢
  by_cases hrows : query1m (resolveStartTime st sym ex iv force incr).1 sym ex
      (resolveStartTime st sym ex iv force incr).2 = []
  · rw [if_pos hrows] at hn
    simp at hn
  · rw [if_neg hrows] at hn ⊢
    unfold insertPhase at hn ⊢
    by_cases hagg : agg sym ex (query1m (resolveStartTime st sym ex iv force incr).1
        sym ex (resolveStartTime st sym ex iv force incr).2) = []
    · rw [if_pos hagg] at hn
      simp at hn
    · rw [if_neg hagg]
      show (updateOverview _ sym ex iv).overview.filter _ = _
      rw [updateOverview_spec _ sym ex iv (by
        show (({ (resolveStartTime st sym ex iv force incr).1 with
          bars := _ } : Store).overview.filter (okeyB sym ex iv)).length ≤ 1
        rw [show ({ (resolveStartTime st sym ex iv force incr).1 with
          bars := (resolveStartTime st sym ex iv force incr).1.bars ++
            agg sym ex (query1m (resolveStartTime st sym ex iv force incr).1 sym ex
              (resolveStartTime st sym ex iv force incr).2) } : Store).overview =
          st.overview from (resolve_overview st sym ex iv force incr)]
        exact h)]
      rw [updateOverview_bars]

lemma resolve_noforce_incr (st : Store) (sym ex iv : String) :
    resolveStartTime st sym ex iv false true =
      (st, if 0 < countKey st sym ex iv then lastAggTime st sym ex iv else none) := by
  rw [resolve_noforce]
  simp

/-- Core of the incremental-idempotence argument, shared by the daily and
hourly instantiations: with force off and incremental on, running the
preprocessor routine a second time immediately after a run, with no change to
the store in between, selects no 1-minute rows (the resume parameter's date
is an upper bound for every 1-minute bar's date) and hence returns 0 and
leaves the store untouched. -/
lemma second_run_inserts_nothing
    (agg : String → String → List DbRow → List DbRow) (iv : String)
    (hiv : iv ≠ "1m")
    (hkey : ∀ sym ex rows r, r ∈ agg sym ex rows → keyPredB sym ex iv r = true)
    (hlast : ∀ sym ex (init : List DbRow) (lb : DbRow),
        ∃ r ∈ agg sym ex (init ++ [lb]), r.dt.date = lb.dt.date)
    (st : Store) (sym ex : String) :
    runAggregation agg iv (runAggregation agg iv st sym ex false true).1
        sym ex false true =
      ((runAggregation agg iv st sym ex false true).1, 0) := by
  have hrun1 : runAggregation agg iv st sym ex false true =
      if query1m st sym ex (if 0 < countKey st sym ex iv
          then lastAggTime st sym ex iv else none) = [] then (st, 0)
      else insertPhase st sym ex iv (agg sym ex (query1m st sym ex
        (if 0 < countKey st sym ex iv then lastAggTime st sym ex iv else none))) := by
    rw [runAggregation_eq, resolve_noforce_incr]
  set t1 := (if 0 < countKey st sym ex iv
    then lastAggTime st sym ex iv else none) with ht1
  set rows1 := query1m st sym ex t1 with hrows1def
  by_cases hr1 : rows1 = []
  · have hst : runAggregation agg iv st sym ex false true = (st, 0) := by
      rw [hrun1, if_pos hr1]
    rw [hst]
    show runAggregation agg iv st sym ex false true = (st, 0)
    exact hst
  · obtain ⟨init, lb, hconcat⟩ := exists_concat_of_ne_nil rows1 hr1
    have hAne : agg sym ex rows1 ≠ [] := by
      obtain ⟨r, hrm, _⟩ := hlast sym ex init lb
      rw [← hconcat] at hrm
      exact List.ne_nil_of_mem hrm
    have hrun1' : runAggregation agg iv st sym ex false true =
        (updateOverview { st with bars := st.bars ++ agg sym ex rows1 } sym ex iv,
          (agg sym ex rows1).length) := by
      rw [hrun1, if_neg hr1]
      unfold insertPhase
      rw [if_neg hAne]
    set p1 : Store := (runAggregation agg iv st sym ex false true).1 with hp1
    have hp1e : p1 =
        updateOverview { st with bars := st.bars ++ agg sym ex rows1 } sym ex iv := by
      rw [hp1, hrun1']
    have hbars : p1.bars = st.bars ++ agg sym ex rows1 := by
      rw [hp1e, updateOverview_bars]
    have hfilterA : (agg sym ex rows1).filter (keyPredB sym ex iv) =
        agg sym ex rows1 :=
      List.filter_eq_self.mpr (fun r hr => hkey sym ex rows1 r hr)
    have hE2 : 0 < countKey p1 sym ex iv := by
      unfold countKey
      rw [hbars, List.filter_append, hfilterA, List.length_append]
      have := List.length_pos.mpr hAne
      omega
    have hfne : p1.bars.filter (keyPredB sym ex iv) ≠ [] := by
      intro hnil
      unfold countKey at hE2
      rw [hnil] at hE2
      simp at hE2
    obtain ⟨t2, ht2⟩ := maxDtList_of_ne_nil hfne
    have hlast2 : lastAggTime p1 sym ex iv = some t2 := ht2
    have hub : ∀ r ∈ p1.bars.filter (keyPredB sym ex iv), dtle r.dt t2 :=
      maxDtList_ub ht2
    obtain ⟨rstar, hrstarm, hrstard⟩ := hlast sym ex init lb
    rw [← hconcat] at hrstarm
    have hrstar2 : rstar ∈ p1.bars.filter (keyPredB sym ex iv) := by
      rw [hbars, List.filter_append]
      refine List.mem_append_right _ ?_
      rw [hfilterA]
      exact hrstarm
    have hlbdate : lb.dt.date ≤ t2.date := by
      have hd := dtle_date (hub rstar hrstar2)
      rw [hrstard] at hd
      exact hd
    have hsorted : List.Sorted rowLe rows1 := query1m_sorted st sym ex t1
    have hall : ∀ b ∈ p1.bars, keyPredB sym ex "1m" b = true →
        sinceLt (some t2) b = false := by
      intro b hb hbk
      rw [hbars] at hb
      rcases List.mem_append.mp hb with hb1 | hb1
      · by_cases hsel : sinceLt t1 b = true
        · have hbrows : b ∈ rows1 := query1m_mem.mpr ⟨hb1, hbk, hsel⟩
          rw [hconcat] at hbrows
          rw [hconcat] at hsorted
          have hble : b.dt.date ≤ lb.dt.date :=
            dtle_date (sorted_concat_dtle hsorted hbrows)
          simp only [sinceLt, decide_eq_false_iff_not]
          omega
        · cases ht1case : t1 with
          | none =>
            rw [ht1case] at hsel
            simp [sinceLt] at hsel
          | some tau1 =>
            rw [ht1case] at hsel
            simp only [sinceLt, decide_eq_true_eq] at hsel
            have hEpos : 0 < countKey st sym ex iv := by
              by_contra hE0
              rw [ht1, if_neg hE0] at ht1case
              cases ht1case
            have htau : lastAggTime st sym ex iv = some tau1 := by
              rw [ht1, if_pos hEpos] at ht1case
              exact ht1case
            obtain ⟨rtau, hrtaum, hrtaudt⟩ := maxDtList_mem htau
            have hrtau2 : rtau ∈ p1.bars.filter (keyPredB sym ex iv) := by
              rw [hbars, List.filter_append]
              exact List.mem_append_left _ hrtaum
            have htaule : tau1.date ≤ t2.date := by
              have hd := dtle_date (hub rtau hrtau2)
              rw [hrtaudt] at hd
              exact hd
            simp only [sinceLt, decide_eq_false_iff_not]
            omega
      · have h1 := (keyPredB_iff.mp (hkey sym ex rows1 b hb1)).2.2
        have h2 := (keyPredB_iff.mp hbk).2.2
        rw [h1] at h2
        exact absurd h2 hiv
    have hrows2 : query1m p1 sym ex (some t2) = [] := query1m_eq_nil hall
    have hres2 : resolveStartTime p1 sym ex iv false true = (p1, some t2) := by
      rw [resolve_noforce_incr, if_pos hE2, hlast2]
    rw [runAggregation_eq, hres2]
    show (if query1m p1 sym ex (some t2) = [] then (p1, 0)
      else insertPhase p1 sym ex iv (agg sym ex (query1m p1 sym ex (some t2)))) =
      (p1, 0)
    rw [if_pos hrows2]

lemma me_runCore_eq (agg : String → String → List DbRow → List DbRow)
    (iv : String) (st1 : Store) (sym ex : String) :
    me_runCore agg iv st1 sym ex =
      if query1m st1 sym ex none = [] then (st1, 0)
      else insertPhase st1 sym ex iv (agg sym ex (query1m st1 sym ex none)) := rfl

lemma me_run_skip (agg : String → String → List DbRow → List DbRow)
    (iv : String) (st : Store) (sym ex : String)
    (h : countKey st sym ex iv ≠ 0) :
    me_runAggregation agg iv st sym ex false = (st, 0) := by
  unfold me_runAggregation
  rw [if_neg (fun hc => by cases hc.2), if_neg h]

lemma me_runCore_overview (agg : String → String → List DbRow → List DbRow)
    (iv : String) (st1 : Store) (sym ex : String)
    (h : (st1.overview.filter (okeyB sym ex iv)).length ≤ 1)
    (hn : 1 ≤ (me_runCore agg iv st1 sym ex).2) :
    (me_runCore agg iv st1 sym ex).1.overview.filter (okeyB sym ex iv) =
      [⟨sym, ex, iv,
        ((me_runCore agg iv st1 sym ex).1.bars.filter (keyPredB sym ex iv)).length,
        minDtList ((me_runCore agg iv st1 sym ex).1.bars.filter (keyPredB sym ex iv)),
        maxDtList ((me_runCore agg iv st1 sym ex).1.bars.filter
          (keyPredB sym ex iv))⟩] := by
  rw [me_runCore_eq] at hn ⊢
  by_cases hrows : query1m st1 sym ex none = []
  · rw [if_pos hrows] at hn
    simp at hn
  · rw [if_neg hrows] at hn ⊢
    unfold insertPhase at hn ⊢
    by_cases hagg : agg sym ex (query1m st1 sym ex none) = []
    · rw [if_pos hagg] at hn
      simp at hn
    · rw [if_neg hagg]
      show (updateOverview { st1 with
        bars := st1.bars ++ agg sym ex (query1m st1 sym ex none) } sym ex
          iv).overview.filter (okeyB sym ex iv) = _
      rw [updateOverview_spec { st1 with
        bars := st1.bars ++ agg sym ex (query1m st1 sym ex none) } sym ex iv
        (by show (st1.overview.filter (okeyB sym ex iv)).length ≤ 1; exact h)]
      rw [updateOverview_bars]

lemma me_runAggregation_overview (agg : String → String → List DbRow → List DbRow)
    (iv : String) (st : Store) (sym ex : String) (force : Bool)
    (h : (st.overview.filter (okeyB sym ex iv)).length ≤ 1)
    (hn : 1 ≤ (me_runAggregation agg iv st sym ex force).2) :
    (me_runAggregation agg iv st sym ex force).1.overview.filter (okeyB sym ex iv) =
      [⟨sym, ex, iv,
        ((me_runAggregation agg iv st sym ex force).1.bars.filter
          (keyPredB sym ex iv)).length,
        minDtList ((me_runAggregation agg iv st sym ex force).1.bars.filter
          (keyPredB sym ex iv)),
        maxDtList ((me_runAggregation agg iv st sym ex force).1.bars.filter
          (keyPredB sym ex iv))⟩] := by
  unfold me_runAggregation at hn ⊢
  by_cases hc1 : 0 < countKey st sym ex iv ∧ force = true
  · rw [if_pos hc1] at hn ⊢
    exact me_runCore_overview agg iv (deleteRows st sym ex iv) sym ex
      (by rw [deleteRows_overview]; exact h) hn
  · rw [if_neg hc1] at hn ⊢
    by_cases hc2 : countKey st sym ex iv = 0
    · rw [if_pos hc2] at hn ⊢
      exact me_runCore_overview agg iv st sym ex h hn
    · rw [if_neg hc2] at hn
      simp at hn

/-- Closed form of the daily aggregation on a stream that contains no
14:59:00 bar except possibly the last one: the whole stream folds into a
single daily row, opened at the first bar's open, closed at the last bar's
close, with the sentinel-seeded running high/low (seeds 0 and
999999999999999) and the volume sum; the timestamp is the last bar's date at
15:00:00 when the last bar is the 14:59:00 cutoff, and the last bar's own
datetime otherwise. -/
lemma daily_single_group (sym ex : String) (b0 lb : DbRow) (mid : List DbRow)
    (hb0 : b0.dt.time ≠ cutoffTime)
    (hmid : ∀ x ∈ mid, x.dt.time ≠ cutoffTime) :
    aggregateDailyRows sym ex ((b0 :: mid) ++ [lb]) =
      [mkDailyRow sym ex
        (if lb.dt.time = cutoffTime then ⟨lb.dt.date, 54000⟩ else lb.dt)
        (((b0 :: mid) ++ [lb]).foldl (fun a x => a + x.volume) 0)
        b0.open_price
        (((b0 :: mid) ++ [lb]).foldl (fun a x => max x.high_price a) 0)
        (((b0 :: mid) ++ [lb]).foldl (fun a x => min x.low_price a) 999999999999999)
        lb.close_price] := by
  simp only [aggregateDailyRows]
  rw [List.cons_append, List.foldl_cons, List.foldl_append, List.foldl_cons,
    List.foldl_nil]
  have hidx1 : (dailyStep sym ex initDaily b0).index ≠ 0 := by
    rw [dailyStep_noncutoff sym ex initDaily b0 hb0]
    simp
  rw [daily_fold_noflush sym ex mid (dailyStep sym ex initDaily b0) hmid hidx1,
    dailyStep_noncutoff sym ex initDaily b0 hb0]
  by_cases hlb : lb.dt.time = cutoffTime
  · rw [dailyStep_cutoff sym ex _ lb hlb, if_pos hlb]
    simp [dailyTail, initDaily, mkDailyRow]
  · rw [dailyStep_noncutoff sym ex _ lb hlb, if_neg hlb]
    simp [dailyTail, initDaily, mkDailyRow, hlb]

/-- C2 (hourly reduction correctness): the hourly bar emitted for a
non-empty group of 1-minute bars lying in one calendar hour has open = first
bar's open, close = last bar's close, high = group max, low = group min,
volume = group sum, turnover = open_interest = 0, and is timestamped at the
hour's start. -/
theorem c2_hourly_reduction (sym ex : String) (d h : Nat) (b : DbRow)
    (t : List DbRow)
    (hall : ∀ x ∈ b :: t, x.dt.date = d ∧ x.dt.time / 3600 = h) :
    ∃ r, aggregateHourlyRows sym ex (b :: t) = [r] ∧
      r.open_price = b.open_price ∧
      r.close_price = ((b :: t).getLast (List.cons_ne_nil b t)).close_price ∧
      r.high_price = qListMax b.high_price (t.map (fun x => x.high_price)) ∧
      r.low_price = qListMin b.low_price (t.map (fun x => x.low_price)) ∧
      r.volume = qListSum b.volume (t.map (fun x => x.volume)) ∧
      r.turnover = 0 ∧ r.open_interest = 0 ∧
      r.dt = ⟨d, h * 3600⟩ := by
  obtain ⟨hbd, hbh⟩ := hall b (List.mem_cons_self b t)
  have hkt : ∀ x ∈ t, (x.dt.date, x.dt.time / 3600) = (b.dt.date, b.dt.time / 3600) := by
    intro x hx
    obtain ⟨h1, h2⟩ := hall x (List.mem_cons_of_mem b hx)
    rw [h1, h2, hbd, hbh]
  simp only [aggregateHourlyRows]
  rw [List.foldl_cons,
    hourlyStep_new sym ex initHourly b (by simp [initHourly]),
    hourly_fold_same sym ex t _ (b.dt.date, b.dt.time / 3600) rfl hkt]
  have hipos : 0 < 1 + t.length := by omega
  refine ⟨mkHourlyRow sym ex (b.dt.date, b.dt.time / 3600)
    (t.foldl (fun a x => a + x.volume) b.volume)
    b.open_price
    (t.foldl (fun a x => max x.high_price a) b.high_price)
    (t.foldl (fun a x => min x.low_price a) b.low_price)
    (t.foldl (fun _ x => x.close_price) b.close_price), ?_, rfl, ?_, ?_, ?_, ?_,
    rfl, rfl, ?_⟩
  · simp [hourlyTail, initHourly, hipos]
  · cases t with
    | nil => rfl
    | cons y u =>
      have h2 : y :: u ≠ [] := by simp
      rw [foldl_const_last (fun x => x.close_price) (y :: u) b.close_price h2]
      conv_rhs => rw [List.getLast_cons h2]
      rfl
  · unfold qListMax
    rw [← foldl_flipmax, List.foldl_map]
    rfl
  · unfold qListMin
    rw [← foldl_flipmin, List.foldl_map]
    rfl
  · unfold qListSum
    rw [List.foldl_map]
    rfl
  · rw [mkHourlyRow, hbd, hbh]

/-- C2 witness: the hourly reduction property evaluated on a concrete
two-bar group (09:00 and 09:01 on one date). -/
theorem c2_hourly_reduction_witness :
    ∃ r, aggregateHourlyRows "rb2401" "SHFE"
      [⟨"rb2401", "SHFE", ⟨100, 32400⟩, "1m", 2, 0, 0, 10, 15, 9, 12⟩,
       ⟨"rb2401", "SHFE", ⟨100, 32460⟩, "1m", 3, 0, 0, 12, 14, 8, 11⟩] = [r] ∧
      r.open_price = 10 ∧ r.close_price = 11 ∧
      r.high_price = qListMax 15 [14] ∧ r.low_price = qListMin 9 [8] ∧
      r.volume = qListSum 2 [3] ∧ r.turnover = 0 ∧ r.open_interest = 0 ∧
      r.dt = ⟨100, 9 * 3600⟩ := by
  have h := c2_hourly_reduction "rb2401" "SHFE" 100 9
    ⟨"rb2401", "SHFE", ⟨100, 32400⟩, "1m", 2, 0, 0, 10, 15, 9, 12⟩
    [⟨"rb2401", "SHFE", ⟨100, 32460⟩, "1m", 3, 0, 0, 12, 14, 8, 11⟩]
    (by decide)
  simpa using h

/-- C1: for an ascending stream covering a full night+day session — evening
bars on date D (from 21:00:00, or 20:55 in the synthetic variant),
post-midnight bars on date D+1 before 03:00, a day session on D+1 ending
with the 14:59:00 bar — daily aggregation emits exactly one daily bar,
timestamped D+1 15:00:00, whose open is the first night bar's open and whose
close is the 14:59:00 bar's close. -/
theorem c1_night_day_session (sym ex : String) (D : Nat) (b0 bl : DbRow)
    (night1 night2 day : List DbRow)
    (hb0d : b0.dt.date = D) (hb0ge : 75300 ≤ b0.dt.time)
    (hn1 : ∀ x ∈ night1, x.dt.date = D ∧ 75300 ≤ x.dt.time)
    (hn2 : ∀ x ∈ night2, x.dt.date = D + 1 ∧ x.dt.time < 10800)
    (hday : ∀ x ∈ day, x.dt.date = D + 1 ∧ x.dt.time < cutoffTime)
    (hbl : bl.dt = ⟨D + 1, cutoffTime⟩) :
    ∃ r, aggregateDailyRows sym ex
        ((b0 :: (night1 ++ night2 ++ day)) ++ [bl]) = [r] ∧
      r.dt = ⟨D + 1, 54000⟩ ∧
      r.open_price = b0.open_price ∧
      r.close_price = bl.close_price := by
  have hb0t : b0.dt.time ≠ cutoffTime := by
    unfold cutoffTime
    omega
  have hmidt : ∀ x ∈ night1 ++ night2 ++ day, x.dt.time ≠ cutoffTime := by
    intro x hx
    rcases List.mem_append.mp hx with hx1 | hx1
    · rcases List.mem_append.mp hx1 with hx2 | hx2
      · have := (hn1 x hx2).2
        unfold cutoffTime
        omega
      · have := (hn2 x hx2).2
        unfold cutoffTime
        omega
    · have := (hday x hx1).2
      unfold cutoffTime at this ⊢
      omega
  rw [daily_single_group sym ex b0 bl _ hb0t hmidt]
  refine ⟨_, rfl, ?_, rfl, rfl⟩
  show (if bl.dt.time = cutoffTime then (⟨bl.dt.date, 54000⟩ : DateTime)
    else bl.dt) = ⟨D + 1, 54000⟩
  rw [hbl]
  simp

/-- Concrete bars for the C1 witness (dates 500/501 standing for
2024-01-15 / 2024-01-16). -/
def c1wB0 : DbRow := ⟨"rb2401", "SHFE", ⟨500, 75600⟩, "1m", 1, 0, 0, 9, 10, 8, 9⟩

def c1wNight1 : List DbRow := [⟨"rb2401", "SHFE", ⟨500, 79200⟩, "1m", 1, 0, 0, 2, 3, 1, 2⟩]

def c1wNight2 : List DbRow := [⟨"rb2401", "SHFE", ⟨501, 600⟩, "1m", 1, 0, 0, 4, 5, 2, 4⟩]

def c1wDay : List DbRow := [⟨"rb2401", "SHFE", ⟨501, 32400⟩, "1m", 1, 0, 0, 6, 7, 3, 6⟩]

def c1wBl : DbRow := ⟨"rb2401", "SHFE", ⟨501, 53940⟩, "1m", 1, 0, 0, 7, 8, 4, 5⟩

/-- C1 witness: the night+day scenario evaluated on a concrete five-bar
stream. -/
theorem c1_night_day_session_witness :
    ∃ r, aggregateDailyRows "rb2401" "SHFE"
        ((c1wB0 :: (c1wNight1 ++ c1wNight2 ++ c1wDay)) ++ [c1wBl]) = [r] ∧
      r.dt = ⟨500 + 1, 54000⟩ ∧
      r.open_price = c1wB0.open_price ∧
      r.close_price = c1wBl.close_price :=
  c1_night_day_session "rb2401" "SHFE" 500 c1wB0 c1wBl c1wNight1 c1wNight2 c1wDay
    (by decide) (by decide) (by decide) (by decide) (by decide) (by decide)

/-- C3 counterexample: a trading day (date 10) whose bars never reach
14:59:00, followed by bars of the next calendar date 11 that do: the code
emits a single daily row only — date 10's bars are folded into date 11's
bar (its open is date 10's first open, 1) and no separate daily bar for
date 10 exists, contradicting the claimed close-at-label-change. -/
theorem c3_counterexample :
    (aggregateDailyRows "a" "X"
      [⟨"a", "X", ⟨10, 32400⟩, "1m", 1, 0, 0, 1, 2, 1, 1⟩,
       ⟨"a", "X", ⟨10, 41400⟩, "1m", 1, 0, 0, 3, 4, 2, 3⟩,
       ⟨"a", "X", ⟨11, 32400⟩, "1m", 1, 0, 0, 5, 6, 3, 5⟩,
       ⟨"a", "X", ⟨11, 53940⟩, "1m", 1, 0, 0, 7, 8, 4, 7⟩] =
      [⟨"a", "X", ⟨11, 54000⟩, "d", 4, 0, 0, 1, 8, 1, 7⟩]) ∧
    ¬ ∃ r ∈ aggregateDailyRows "a" "X"
      [⟨"a", "X", ⟨10, 32400⟩, "1m", 1, 0, 0, 1, 2, 1, 1⟩,
       ⟨"a", "X", ⟨10, 41400⟩, "1m", 1, 0, 0, 3, 4, 2, 3⟩,
       ⟨"a", "X", ⟨11, 32400⟩, "1m", 1, 0, 0, 5, 6, 3, 5⟩,
       ⟨"a", "X", ⟨11, 53940⟩, "1m", 1, 0, 0, 7, 8, 4, 7⟩],
      r.dt.date = 10 := by
  norm_num [aggregateDailyRows, dailyStep, dailyTail, initDaily, mkDailyRow,
    cutoffTime, max_def, min_def]

/-- C3 (amended): daily aggregation does not close a trading day at a
day-label change.  A day whose bars never include a 14:59:00 bar is folded
forward: for a stream whose first bar lies on date D1, whose later bars
include a date change to D2 > D1, and whose only 14:59:00 bar is the final
one, exactly one daily row is emitted, opened at the D1 bar's open, closed
at the final 14:59:00 bar's close, with the volume of the entire merged
stream; no separate row for D1 exists. -/
theorem c3_amended_label_change_merged (sym ex : String) (D1 D2 : Nat)
    (b0 bl : DbRow) (mid : List DbRow)
    (hD : D1 < D2)
    (hb0d : b0.dt.date = D1) (hb0t : b0.dt.time ≠ cutoffTime)
    (hmid : ∀ x ∈ mid, x.dt.time ≠ cutoffTime)
    (hbld : bl.dt.date = D2) (hblt : bl.dt.time = cutoffTime) :
    ∃ r, aggregateDailyRows sym ex ((b0 :: mid) ++ [bl]) = [r] ∧
      r.dt = ⟨D2, 54000⟩ ∧
      r.open_price = b0.open_price ∧
      r.close_price = bl.close_price ∧
      r.volume = qListSum 0 (((b0 :: mid) ++ [bl]).map (fun x => x.volume)) := by
  rw [daily_single_group sym ex b0 bl mid hb0t hmid]
  refine ⟨_, rfl, ?_, rfl, rfl, ?_⟩
  · show (if bl.dt.time = cutoffTime then (⟨bl.dt.date, 54000⟩ : DateTime)
      else bl.dt) = ⟨D2, 54000⟩
    rw [if_pos hblt, hbld]
  · show ((b0 :: mid) ++ [bl]).foldl (fun a x => a + x.volume) 0 =
      qListSum 0 (((b0 :: mid) ++ [bl]).map (fun x => x.volume))
    unfold qListSum
    rw [List.foldl_map]

/-- Concrete bars for the C3 amended witness (day 20 without a cutoff bar,
day 21 ending at 14:59:00). -/
def c3wB0 : DbRow := ⟨"b", "Y", ⟨20, 32400⟩, "1m", 2, 0, 0, 11, 12, 10, 11⟩

def c3wMid : List DbRow := [⟨"b", "Y", ⟨21, 32400⟩, "1m", 3, 0, 0, 13, 14, 12, 13⟩]

def c3wBl : DbRow := ⟨"b", "Y", ⟨21, 53940⟩, "1m", 4, 0, 0, 15, 16, 14, 15⟩

/-- C3 amended witness: the merge behaviour evaluated on a concrete
three-bar stream. -/
theorem c3_amended_label_change_merged_witness :
    ∃ r, aggregateDailyRows "b" "Y" ((c3wB0 :: c3wMid) ++ [c3wBl]) = [r] ∧
      r.dt = ⟨21, 54000⟩ ∧
      r.open_price = c3wB0.open_price ∧
      r.close_price = c3wBl.close_price ∧
      r.volume = qListSum 0 (((c3wB0 :: c3wMid) ++ [c3wBl]).map (fun x => x.volume)) :=
  c3_amended_label_change_merged "b" "Y" 20 21 c3wB0 c3wBl c3wMid
    (by decide) (by decide) (by decide) (by decide) (by decide) (by decide)

/-- C4: if the stream ends while a trading day is in progress (the last bar
is not the 14:59:00 cutoff bar), the daily aggregation still emits exactly
one daily row for that partial day — output length is the number of
14:59:00 flushes plus one — whose close is the last bar's close and whose
timestamp is the last bar's own date and time, not the 15:00:00
convention. -/
theorem c4_partial_day_flush (sym ex : String) (init : List DbRow) (lb : DbRow)
    (hlb : lb.dt.time ≠ cutoffTime) :
    ∃ pre r, aggregateDailyRows sym ex (init ++ [lb]) = pre ++ [r] ∧
      r.dt = lb.dt ∧ r.close_price = lb.close_price ∧
      (pre ++ [r]).length =
        (init ++ [lb]).countP (fun x => x.dt.time == cutoffTime) + 1 := by
  simp only [aggregateDailyRows]
  rw [List.foldl_append, List.foldl_cons, List.foldl_nil,
    dailyStep_noncutoff sym ex _ lb hlb]
  refine ⟨(init.foldl (dailyStep sym ex) initDaily).daily_data,
    mkDailyRow sym ex lb.dt
      ((init.foldl (dailyStep sym ex) initDaily).daily_volume + lb.volume)
      (if (init.foldl (dailyStep sym ex) initDaily).index = 0 then lb.open_price
        else (init.foldl (dailyStep sym ex) initDaily).daily_open)
      (max lb.high_price (init.foldl (dailyStep sym ex) initDaily).daily_high)
      (min lb.low_price (init.foldl (dailyStep sym ex) initDaily).daily_low)
      lb.close_price, ?_, rfl, rfl, ?_⟩
  · simp [dailyTail, hlb]
  · rw [List.length_append, daily_fold_length sym ex init initDaily,
      List.countP_append]
    simp [initDaily, List.countP_cons, hlb]

/-- Concrete bars for the C4 witness: a single trading day truncated at
11:30 with no cutoff bar. -/
def c4wInit : List DbRow := [⟨"c", "Z", ⟨30, 32400⟩, "1m", 5, 0, 0, 21, 22, 20, 21⟩]

def c4wLb : DbRow := ⟨"c", "Z", ⟨30, 41400⟩, "1m", 6, 0, 0, 23, 24, 22, 23⟩

/-- C4 witness: the partial-day flush evaluated on a concrete truncated
stream. -/
theorem c4_partial_day_flush_witness :
    ∃ pre r, aggregateDailyRows "c" "Z" (c4wInit ++ [c4wLb]) = pre ++ [r] ∧
      r.dt = c4wLb.dt ∧ r.close_price = c4wLb.close_price ∧
      (pre ++ [r]).length =
        (c4wInit ++ [c4wLb]).countP (fun x => x.dt.time == cutoffTime) + 1 :=
  c4_partial_day_flush "c" "Z" c4wInit c4wLb (by decide)

/-- C8 counterexample: a one-bar trading day whose prices are all -1.  The
daily high accumulator is seeded with 0 (`daily_high = 0`), so the emitted
row's high is 0, not the group's maximum high -1: with negative prices the
claimed high = max-of-highs fails. -/
theorem c8_counterexample :
    (aggregateDailyRows "s" "E"
      [⟨"s", "E", ⟨10, 53940⟩, "1m", 1, 0, 0, -1, -1, -1, -1⟩] =
      [⟨"s", "E", ⟨10, 54000⟩, "d", 1, 0, 0, -1, 0, -1, -1⟩]) ∧
    (0 : ℚ) ≠ qListMax (-1) [] := by
  constructor
  · norm_num [aggregateDailyRows, dailyStep, dailyTail, initDaily, mkDailyRow,
      cutoffTime, max_def, min_def]
  · norm_num [qListMax]

/-- C8 (amended): within one trading-day group the emitted row's high and
low are the sentinel-seeded running folds (seeds 0 and 999999999999999), so
they equal the group maximum of highs and minimum of lows provided that
maximum is nonnegative and that minimum is at most 999999999999999 — as
with ordinary futures prices; for negative highs or astronomically large
lows the sentinels win (see the counterexample). -/
theorem c8_amended_high_low (sym ex : String) (b0 lb : DbRow) (mid : List DbRow)
    (hb0 : b0.dt.time ≠ cutoffTime)
    (hmid : ∀ x ∈ mid, x.dt.time ≠ cutoffTime)
    (hM : 0 ≤ qListMax b0.high_price ((mid ++ [lb]).map (fun x => x.high_price)))
    (hm : qListMin b0.low_price ((mid ++ [lb]).map (fun x => x.low_price)) ≤
      999999999999999) :
    ∃ r, aggregateDailyRows sym ex ((b0 :: mid) ++ [lb]) = [r] ∧
      r.high_price = qListMax b0.high_price ((mid ++ [lb]).map (fun x => x.high_price)) ∧
      r.low_price = qListMin b0.low_price ((mid ++ [lb]).map (fun x => x.low_price)) := by
  rw [daily_single_group sym ex b0 lb mid hb0 hmid]
  refine ⟨_, rfl, ?_, ?_⟩
  · show ((b0 :: mid) ++ [lb]).foldl (fun a x => max x.high_price a) 0 = _
    have he : ((b0 :: mid) ++ [lb]).foldl (fun a x => max x.high_price a) 0 =
        qListMax 0 (((b0 :: mid) ++ [lb]).map (fun x => x.high_price)) := by
      unfold qListMax
      rw [← foldl_flipmax, List.foldl_map]
    rw [he, List.cons_append, List.map_cons, qListMax_cons]
    exact max_eq_right hM
  · show ((b0 :: mid) ++ [lb]).foldl (fun a x => min x.low_price a)
      999999999999999 = _
    have he : ((b0 :: mid) ++ [lb]).foldl (fun a x => min x.low_price a)
        999999999999999 =
        qListMin 999999999999999 (((b0 :: mid) ++ [lb]).map (fun x => x.low_price)) := by
      unfold qListMin
      rw [← foldl_flipmin, List.foldl_map]
    rw [he, List.cons_append, List.map_cons, qListMin_cons]
    exact min_eq_right hm

/-- Concrete bars for the C8 amended witness. -/
def c8wB0 : DbRow := ⟨"s", "E", ⟨40, 75600⟩, "1m", 1, 0, 0, 31, 35, 30, 32⟩

def c8wMid : List DbRow := [⟨"s", "E", ⟨41, 32400⟩, "1m", 1, 0, 0, 33, 37, 29, 33⟩]

def c8wLb : DbRow := ⟨"s", "E", ⟨41, 53940⟩, "1m", 1, 0, 0, 34, 36, 28, 34⟩

/-- C8 amended witness: the high/low reduction evaluated on a concrete
three-bar group with ordinary positive prices. -/
theorem c8_amended_high_low_witness :
    0 ≤ qListMax c8wB0.high_price ((c8wMid ++ [c8wLb]).map (fun x => x.high_price)) ∧
    ∃ r, aggregateDailyRows "s" "E" ((c8wB0 :: c8wMid) ++ [c8wLb]) = [r] ∧
      r.high_price = qListMax c8wB0.high_price
        ((c8wMid ++ [c8wLb]).map (fun x => x.high_price)) ∧
      r.low_price = qListMin c8wB0.low_price
        ((c8wMid ++ [c8wLb]).map (fun x => x.low_price)) := by
  constructor
  · show (0 : ℚ) ≤ qListMax 35 [37, 36]
    norm_num [qListMax]
  · exact c8_amended_high_low "s" "E" c8wB0 c8wLb c8wMid (by decide) (by decide)
      (by show (0 : ℚ) ≤ qListMax 35 [37, 36]; norm_num [qListMax])
      (by show qListMin (30 : ℚ) [29, 28] ≤ 999999999999999; norm_num [qListMin])

/-- C5: running `BarDataPreprocessor.aggregate_daily_data` in incremental
mode (force_update off, incremental on) a second time immediately after a
run, with no rows inserted in between, inserts nothing and returns 0: the
resume parameter's calendar date bounds every stored 1-minute bar's date, so
the re-query is empty. -/
theorem c5_daily_incremental_idempotent (st : Store) (sym ex : String) :
    aggregate_daily_data (aggregate_daily_data st sym ex false true).1 sym ex
        false true =
      ((aggregate_daily_data st sym ex false true).1, 0) :=
  second_run_inserts_nothing aggregateDailyRows "d" (by decide)
    (fun sym ex rows r hr => aggregateDailyRows_key sym ex rows r hr)
    (fun sym ex init lb => daily_mem_lastdate sym ex init lb) st sym ex

/-- C6: with existing daily rows, force-update aggregation produces exactly
the same result — final store, row for row, and return count — as first
deleting all daily rows for the key and then running fresh incremental
aggregation over the full 1-minute history. -/
theorem c6_force_update_equals_delete_fresh (st : Store) (sym ex : String)
    (incr : Bool) (h : 0 < countKey st sym ex "d") :
    aggregate_daily_data st sym ex true incr =
      aggregate_daily_data (deleteRows st sym ex "d") sym ex false true := by
  have h0 : countKey (deleteRows st sym ex "d") sym ex "d" = 0 :=
    countKey_deleteRows st sym ex "d"
  have hnone : (if 0 < countKey (deleteRows st sym ex "d") sym ex "d"
      then lastAggTime (deleteRows st sym ex "d") sym ex "d" else none) = none := by
    rw [h0]
    simp
  unfold aggregate_daily_data
  rw [runAggregation_eq, runAggregation_eq, resolve_force st sym ex "d" incr h,
    resolve_noforce_incr, hnone]

/-- Concrete store for the C6 witness: one existing daily row and one
1-minute bar. -/
def c6wStore : Store :=
  ⟨[⟨"a", "X", ⟨60, 54000⟩, "d", 1, 0, 0, 5, 6, 4, 5⟩,
    ⟨"a", "X", ⟨61, 32400⟩, "1m", 1, 0, 0, 7, 8, 6, 7⟩], []⟩

/-- C6 witness: force-update equals delete + fresh on a concrete store. -/
theorem c6_force_update_equals_delete_fresh_witness :
    aggregate_daily_data c6wStore "a" "X" true false =
      aggregate_daily_data (deleteRows c6wStore "a" "X" "d") "a" "X" false true :=
  c6_force_update_equals_delete_fresh c6wStore "a" "X" false (by decide)

/-- C7: after any aggregation batch that inserts at least one row for the
key — stated for the `BarDataPreprocessor` daily run and the
`ManagerEngine` hourly run, whose overview code is identical — the overview
table holds exactly one row for (symbol, exchange, interval), and its count,
start and end equal COUNT(*), MIN(datetime) and MAX(datetime) recomputed by
direct query over the final bar table for that key; the at-most-one-row
hypothesis is needed because the SQL UPDATE path touches every matching
row. -/
theorem c7_overview_consistency (st : Store) (sym ex : String)
    (force incr : Bool)
    (h1 : (st.overview.filter (okeyB sym ex "d")).length ≤ 1)
    (h2 : (st.overview.filter (okeyB sym ex "1h")).length ≤ 1) :
    (1 ≤ (aggregate_daily_data st sym ex force incr).2 →
      (aggregate_daily_data st sym ex force incr).1.overview.filter
          (okeyB sym ex "d") =
        [⟨sym, ex, "d",
          ((aggregate_daily_data st sym ex force incr).1.bars.filter
            (keyPredB sym ex "d")).length,
          minDtList ((aggregate_daily_data st sym ex force incr).1.bars.filter
            (keyPredB sym ex "d")),
          maxDtList ((aggregate_daily_data st sym ex force incr).1.bars.filter
            (keyPredB sym ex "d"))⟩]) ∧
    (1 ≤ (me_aggregate_hourly_data st sym ex force).2 →
      (me_aggregate_hourly_data st sym ex force).1.overview.filter
          (okeyB sym ex "1h") =
        [⟨sym, ex, "1h",
          ((me_aggregate_hourly_data st sym ex force).1.bars.filter
            (keyPredB sym ex "1h")).length,
          minDtList ((me_aggregate_hourly_data st sym ex force).1.bars.filter
            (keyPredB sym ex "1h")),
          maxDtList ((me_aggregate_hourly_data st sym ex force).1.bars.filter
            (keyPredB sym ex "1h"))⟩]) :=
  ⟨fun hn => runAggregation_overview aggregateDailyRows "d" st sym ex force incr
      h1 hn,
   fun hn => me_runAggregation_overview aggregateHourlyRows "1h" st sym ex force
      h2 hn⟩

/-- Concrete store for the C7 witness: two 1-minute bars, empty overview. -/
def c7wStore : Store :=
  ⟨[⟨"a", "X", ⟨70, 32400⟩, "1m", 1, 0, 0, 1, 2, 1, 1⟩,
    ⟨"a", "X", ⟨70, 36000⟩, "1m", 1, 0, 0, 3, 4, 2, 3⟩], []⟩

/-- C7 witness: overview consistency instantiated on a concrete store. -/
theorem c7_overview_consistency_witness :
    (1 ≤ (aggregate_daily_data c7wStore "a" "X" false true).2 →
      (aggregate_daily_data c7wStore "a" "X" false true).1.overview.filter
          (okeyB "a" "X" "d") =
        [⟨"a", "X", "d",
          ((aggregate_daily_data c7wStore "a" "X" false true).1.bars.filter
            (keyPredB "a" "X" "d")).length,
          minDtList ((aggregate_daily_data c7wStore "a" "X" false true).1.bars.filter
            (keyPredB "a" "X" "d")),
          maxDtList ((aggregate_daily_data c7wStore "a" "X" false true).1.bars.filter
            (keyPredB "a" "X" "d"))⟩]) ∧
    (1 ≤ (me_aggregate_hourly_data c7wStore "a" "X" false).2 →
      (me_aggregate_hourly_data c7wStore "a" "X" false).1.overview.filter
          (okeyB "a" "X" "1h") =
        [⟨"a", "X", "1h",
          ((me_aggregate_hourly_data c7wStore "a" "X" false).1.bars.filter
            (keyPredB "a" "X" "1h")).length,
          minDtList ((me_aggregate_hourly_data c7wStore "a" "X" false).1.bars.filter
            (keyPredB "a" "X" "1h")),
          maxDtList ((me_aggregate_hourly_data c7wStore "a" "X" false).1.bars.filter
            (keyPredB "a" "X" "1h"))⟩]) :=
  c7_overview_consistency c7wStore "a" "X" false true (by decide) (by decide)

/-- C9: in the `ManagerEngine` variant, each aggregation routine, called
with force off on a store that already contains at least one row of that
routine's own target interval, returns 0 and leaves the store — bar table
and overview table — completely unchanged; the two conjuncts are
conditioned independently, each only on its own target interval's rows. -/
theorem c9_me_skip_policy (st : Store) (sym ex : String) :
    (0 < countKey st sym ex "d" →
      me_aggregate_daily_data st sym ex false = (st, 0)) ∧
    (0 < countKey st sym ex "1h" →
      me_aggregate_hourly_data st sym ex false = (st, 0)) :=
  ⟨fun hd => me_run_skip aggregateDailyRows "d" st sym ex (by omega),
   fun hh => me_run_skip aggregateHourlyRows "1h" st sym ex (by omega)⟩

/-- Concrete store for the C9 witness: one daily row only, so the
daily-skip conjunct fires on a store with no hourly rows at all. -/
def c9wStore : Store :=
  ⟨[⟨"a", "X", ⟨80, 54000⟩, "d", 1, 0, 0, 5, 6, 4, 5⟩], []⟩

/-- Concrete store for the C9 witness's hourly conjunct: one hourly row
only. -/
def c9wStoreH : Store :=
  ⟨[⟨"a", "X", ⟨80, 32400⟩, "1h", 1, 0, 0, 5, 6, 4, 5⟩], []⟩

/-- C9 witness: the skip policy evaluated on concrete stores, each holding
rows of just the called routine's target interval. -/
theorem c9_me_skip_policy_witness :
    me_aggregate_daily_data c9wStore "a" "X" false = (c9wStore, 0) ∧
    me_aggregate_hourly_data c9wStoreH "a" "X" false = (c9wStoreH, 0) :=
  ⟨(c9_me_skip_policy c9wStore "a" "X").1 (by decide),
   (c9_me_skip_policy c9wStoreH "a" "X").2 (by decide)⟩

/-- Concrete store for the C10 counterexample: two 1-minute bars at 09:00
and 09:30 of one calendar date, so after one hourly run the last (and only)
aggregated hour contains 1-minute bars after minute HH:00. -/
def c10store : Store :=
  ⟨[⟨"a", "X", ⟨50, 32400⟩, "1m", 1, 0, 0, 1, 2, 1, 1⟩,
    ⟨"a", "X", ⟨50, 34200⟩, "1m", 1, 0, 0, 3, 4, 2, 3⟩], []⟩

/-- C10 counterexample: after one hourly run over `c10store`, exactly one
hourly row exists, timestamped 09:00:00, while a 1-minute bar at 09:30 of
the same hour remains in the store — the claim's premise.  Yet a second
incremental run inserts nothing and returns 0 (it does not re-select the
tail minutes and does not insert a duplicate-key hourly row): the resume
parameter is rendered with a `T` separator, so the stored space-separated
rows of the same calendar date all compare below it. -/
theorem c10_counterexample :
    (aggregate_hourly_data c10store "a" "X" false true).2 = 1 ∧
    ((aggregate_hourly_data c10store "a" "X" false true).1.bars.filter
        (keyPredB "a" "X" "1h")).map (fun r => r.dt) = [⟨50, 32400⟩] ∧
    ((aggregate_hourly_data c10store "a" "X" false true).1.bars.filter
        (keyPredB "a" "X" "1m")).map (fun r => r.dt) =
      [⟨50, 32400⟩, ⟨50, 34200⟩] ∧
    aggregate_hourly_data (aggregate_hourly_data c10store "a" "X" false true).1
        "a" "X" false true =
      ((aggregate_hourly_data c10store "a" "X" false true).1, 0) := by
  refine ⟨by decide, by decide, by decide, ?_⟩
  exact second_run_inserts_nothing aggregateHourlyRows "1h" (by decide)
    (fun sym ex rows r hr => aggregateHourlyRows_key sym ex rows r hr)
    (fun sym ex init lb => hourly_mem_lastdate sym ex init lb) c10store "a" "X"

/-- C10 (amended): hourly incremental aggregation in `BarDataPreprocessor`
is, like the daily case, a no-op on a second run with no new data: because
the resume parameter uses Python's `T`-separated isoformat while stored
datetimes are space-separated, the re-query `datetime > ?` admits only bars
of a strictly later calendar date, so the tail minutes of the last
aggregated hour are never re-selected, no duplicate-key hourly row is
inserted, and the second run returns 0 leaving the store unchanged. -/
theorem c10_amended_hourly_second_run_noop (st : Store) (sym ex : String) :
    aggregate_hourly_data (aggregate_hourly_data st sym ex false true).1 sym ex
        false true =
      ((aggregate_hourly_data st sym ex false true).1, 0) :=
  second_run_inserts_nothing aggregateHourlyRows "1h" (by decide)
    (fun sym ex rows r hr => aggregateHourlyRows_key sym ex rows r hr)
    (fun sym ex init lb => hourly_mem_lastdate sym ex init lb) st sym ex
